import Mathlib

/-!
Verification of the SUPer RLE codec (`src/SUPer/pgraphics.py`).

The bitmap is modelled as a list of rows of natural numbers (numpy `uint8`
values are naturals below 256).  Encoded byte streams are lists of naturals
below 256.  A Python exception is modelled by `Option`: `none` means the call
raised.
-/

/-- One segment record, exposing the two fields `decode_rle` reads
(`pgraphics.py` line 99: `x.o_id` and `x.data`). -/
structure ODS where
  o_id : Nat
  data : List Nat
deriving DecidableEq

/-- Modelled from the spec: `ODS.from_scratch` lives in the external segment
builder (`segments.py`, not part of the sources).  Spec §6: it accepts
`(object_id, object_version, width, height, encoded_payload, ...)` and returns
one or more transport segment records carrying the id and the payload. -/
def ODS.from_scratch (o_id o_vn width height : Nat) (data : List Nat) : List ODS :=
  [{ o_id := o_id, data := data }]

/-- The run scanner: the inner `for k in range(1, 16384)` loop of `encode_rle`
(`pgraphics.py` lines 51-57).  `k` is the candidate run length, `fuel` the
number of remaining loop iterations (`k + fuel = 16383` at every call).
Returns the run length together with the `insert_line_end` flag. -/
def findRunGo (fp : List Nat) (w i : Nat) : Nat → Nat → Nat × Bool
  | 0, k =>
    if w ≤ i % w + k then (k, true)
    else if fp.getD (i + k) 0 ≠ fp.getD i 0 then (k, false)
    else (16383, false)
  | fuel + 1, k =>
    if w ≤ i % w + k then (k, true)
    else if fp.getD (i + k) 0 ≠ fp.getD i 0 then (k, false)
    else findRunGo fp w i fuel (k + 1)

/-- The run scanner started as in the source: `k` begins at 1 and the loop
body runs at most for `k = 1, ..., 16383`. -/
def findRun (fp : List Nat) (w i : Nat) : Nat × Bool :=
  findRunGo fp w i 16382 1

/-- Emission of one run (`pgraphics.py` lines 59-70): `v` is the pixel value
`_fp[i]`, `k` the run length found by the scanner. -/
def encodeRun (v k : Nat) : List Nat :=
  if v ≠ 0 then
    if k < 3 then List.replicate k v
    else if k ≤ 63 then [0, 0x80 ||| k, v]
    else [0, 0xC0 ||| (k >>> 8), k &&& 0xFF, v]
  else
    if k ≤ 63 then [0, k]
    else [0, 0x40 ||| (k >>> 8), k &&& 0xFF]

/-- The outer `while i < _fp.size` loop of `encode_rle` (`pgraphics.py`
lines 50-75): find the run at `i`, emit its code, append the end-of-line
marker when the run reached the row boundary, advance by the run length.
`fuel` bounds the number of iterations; since every run has length at least 1,
`fuel = fp.length` is always sufficient. -/
def encodeLoop (fp : List Nat) (w : Nat) : Nat → Nat → List Nat
  | 0, _ => []
  | fuel + 1, i =>
    if i < fp.length then
      let r := findRun fp w i
      encodeRun (fp.getD i 0) r.1 ++ (if r.2 then [0, 0] else []) ++
        encodeLoop fp w fuel (i + r.1)
    else []

/-- Embedding of `PGraphics.encode_rle` (`pgraphics.py` lines 37-76).  The source first
applies `np.squeeze` to the input: a bitmap with a single row or a single
column collapses below two dimensions, and the subsequent access
`_bitmap.shape[1]` raises `IndexError` — provided the scan loop is entered at
all, i.e. the flattened bitmap is nonempty.  That exception is modelled as
`none`. -/
def encode_rle (bitmap : List (List Nat)) : Option (List Nat) :=
  let h := bitmap.length
  let w := (bitmap.headD []).length
  let fp := bitmap.flatten
  if fp.length = 0 then some []
  else if h = 1 ∨ w = 1 then none
  else some (encodeLoop fp w fp.length 0)

/-- Embedding of `PGraphics.bitmap_to_ods` (`pgraphics.py` lines 28-34).  The numpy dtype
is not representable on lists of naturals, so it is passed as the boolean
`dtype_is_uint8`; the assertion `assert bitmap.dtype == np.uint8` raises
(modelled as `none`) exactly when it is false.  No other validation is
performed before calling `encode_rle`. -/
def bitmap_to_ods (dtype_is_uint8 : Bool) (bitmap : List (List Nat)) (o_id : Nat) :
    Option (List ODS) :=
  if dtype_is_uint8 then
    (encode_rle bitmap).map
      (fun data => ODS.from_scratch o_id 0 (bitmap.headD []).length bitmap.length data)
  else none

/-- The decoder state enumeration (`pgraphics.py` lines 86-92). -/
inductive RLEDecoderState where
  | NEED_MORE
  | NEW_CODE
  | SMALL_TSP
  | LARGE_TSP
  | SMALL_CCO
  | LARGE_CCO
deriving DecidableEq

/-- Evaluation of `RLEDecoderState(byte >> 6)` (`pgraphics.py` line 121): the enum member
with value `0`, `1`, `2` or `3`. -/
def stOfCode (n : Nat) : RLEDecoderState :=
  if n = 0 then .SMALL_TSP
  else if n = 1 then .LARGE_TSP
  else if n = 2 then .SMALL_CCO
  else .LARGE_CCO

/-- The mutable state of one decoding pass: the automaton state, the signed
accumulator `tmp`, the closed rows `plane2d` and the current row `line_l`
(`pgraphics.py` lines 103-105). -/
structure DecSt where
  state : RLEDecoderState
  tmp : Int
  plane2d : List (List Nat)
  line_l : List Nat
deriving DecidableEq

/-- One iteration of the decoder loop `for byte in rle_data`
(`pgraphics.py` lines 108-144), as a pure step function. -/
def decStep (s : DecSt) (byte : Nat) : DecSt :=
  match s.state with
  | .NEW_CODE =>
    if byte > 0 then { s with line_l := s.line_l ++ [byte] }
    else { s with state := .NEED_MORE }
  | .NEED_MORE =>
    if byte = 0 then
      { s with plane2d := s.plane2d ++ [s.line_l], line_l := [], state := .NEW_CODE }
    else
      let st := stOfCode (byte >>> 6)
      if st = .SMALL_TSP then
        { s with line_l := s.line_l ++ List.replicate (byte &&& 0x3F) 0,
                 tmp := ((byte &&& 0x3F : Nat) : Int), state := .NEW_CODE }
      else { s with state := st, tmp := ((byte &&& 0x3F : Nat) : Int) }
  | .SMALL_TSP => s
  | .LARGE_TSP =>
    { s with tmp := s.tmp * 256 + (byte : Int),
             line_l := s.line_l ++ List.replicate (s.tmp * 256 + (byte : Int)).toNat 0,
             state := .NEW_CODE }
  | .SMALL_CCO =>
    { s with line_l := s.line_l ++ List.replicate s.tmp.toNat byte, state := .NEW_CODE }
  | .LARGE_CCO =>
    if 0 ≤ s.tmp then { s with tmp := -(s.tmp * 256 + (byte : Int)) }
    else { s with line_l := s.line_l ++ List.replicate (-s.tmp).toNat byte,
                  state := .NEW_CODE }

/-- The initial decoder state (`pgraphics.py` lines 103-105). -/
def initDecSt : DecSt := { state := .NEW_CODE, tmp := 0, plane2d := [], line_l := [] }

/-- Running the state machine over a byte stream and returning the closed
rows (`pgraphics.py` lines 108-145). -/
def runDecoder (rle_data : List Nat) : List (List Nat) :=
  (rle_data.foldl decStep initDecSt).plane2d

/-- The input normalisation of `decode_rle` (`pgraphics.py` lines 94-101):
a list of segment records is joined into one byte stream, keeping only the
records whose `o_id` matches when a filter is supplied. -/
def joinODS (l : List ODS) (o_id : Option Nat) : List Nat :=
  match o_id with
  | some oid => ((l.filter (fun x => oid == x.o_id)).map (fun x => x.data)).flatten
  | none => (l.map (fun x => x.data)).flatten

/-- The three admissible input shapes of `decode_rle`
(`Union[bytes, bytearray, ODS, list[ODS]]`). -/
inductive RLEInput where
  | bytes (b : List Nat)
  | ods (o : ODS)
  | odsList (l : List ODS)

/-- Embedding of `PGraphics.decode_rle` (`pgraphics.py` lines 79-145): normalise the input
to one byte stream, then run the state machine. -/
def decode_rle (rle_data : RLEInput) (o_id : Option Nat) : List (List Nat) :=
  match rle_data with
  | .bytes b => runDecoder b
  | .ods o => runDecoder (joinODS [o] o_id)
  | .odsList l => runDecoder (joinODS l o_id)

/-- Observer: the rows closed by an end-of-line marker while running the
decoder from state `s`, in order.  A row is closed exactly when a `0` byte is
consumed in state `NEED_MORE`. -/
def rowsClosed : DecSt → List Nat → List (List Nat)
  | _, [] => []
  | s, b :: bs =>
    (if s.state = .NEED_MORE ∧ b = 0 then [s.line_l] else []) ++ rowsClosed (decStep s b) bs

/-- Observer: the number of end-of-line markers consumed while running the
decoder from state `s`. -/
def countEOL : DecSt → List Nat → Nat
  | _, [] => 0
  | s, b :: bs =>
    (if s.state = .NEED_MORE ∧ b = 0 then 1 else 0) + countEOL (decStep s b) bs


/-! ## Helper lemmas -/

/-- The scanner never lets a run cross its row boundary: under the loop
invariant `k + fuel = 16383` and `i % w + k ≤ w`, the returned run length `r`
satisfies `i % w + r ≤ w`. -/
theorem findRunGo_le (fp : List Nat) (w i : Nat) :
    ∀ fuel k, k + fuel = 16383 → i % w + k ≤ w →
      i % w + (findRunGo fp w i fuel k).1 ≤ w := by
  intro fuel
  induction fuel with
  | zero =>
    intro k hk hle
    simp only [findRunGo]
    by_cases h1 : w ≤ i % w + k
    · rw [if_pos h1]
      exact hle
    · rw [if_neg h1]
      by_cases h2 : fp.getD (i + k) 0 = fp.getD i 0
      · rw [if_neg (by simpa using h2)]
        show i % w + 16383 ≤ w
        omega
      · rw [if_pos (by simpa using h2)]
        exact hle
  | succ f ih =>
    intro k hk hle
    simp only [findRunGo]
    by_cases h1 : w ≤ i % w + k
    · rw [if_pos h1]
      exact hle
    · rw [if_neg h1]
      by_cases h2 : fp.getD (i + k) 0 = fp.getD i 0
      · rw [if_neg (by simpa using h2)]
        exact ih (k + 1) (by omega) (by omega)
      · rw [if_pos (by simpa using h2)]
        exact hle

/-- When the scanner reports the `insert_line_end` flag, the run reached the
row boundary: `w ≤ i % w + r`. -/
theorem findRunGo_flag (fp : List Nat) (w i : Nat) :
    ∀ fuel k, (findRunGo fp w i fuel k).2 = true →
      w ≤ i % w + (findRunGo fp w i fuel k).1 := by
  intro fuel
  induction fuel with
  | zero =>
    intro k h
    simp only [findRunGo] at h ⊢
    by_cases h1 : w ≤ i % w + k
    · rw [if_pos h1]
      exact h1
    · rw [if_neg h1] at h ⊢
      by_cases h2 : fp.getD (i + k) 0 = fp.getD i 0
      · rw [if_neg (by simpa using h2)] at h
        exact absurd h (by simp)
      · rw [if_pos (by simpa using h2)] at h
        exact absurd h (by simp)
  | succ f ih =>
    intro k h
    simp only [findRunGo] at h ⊢
    by_cases h1 : w ≤ i % w + k
    · rw [if_pos h1]
      exact h1
    · rw [if_neg h1] at h ⊢
      by_cases h2 : fp.getD (i + k) 0 = fp.getD i 0
      · rw [if_neg (by simpa using h2)] at h ⊢
        exact ih (k + 1) h
      · rw [if_pos (by simpa using h2)] at h
        exact absurd h (by simp)

/-- Top-level version of `findRunGo_le`: a run starting at any position of a
row of positive width ends at or before the row boundary. -/
theorem findRun_le (fp : List Nat) (w i : Nat) (hw : 0 < w) :
    i % w + (findRun fp w i).1 ≤ w := by
  have : i % w < w := Nat.mod_lt i hw
  exact findRunGo_le fp w i 16382 1 (by omega) (by omega)

/-- Top-level version of `findRunGo_flag`. -/
theorem findRun_flag (fp : List Nat) (w i : Nat) (h : (findRun fp w i).2 = true) :
    w ≤ i % w + (findRun fp w i).1 :=
  findRunGo_flag fp w i 16382 1 h

/-- The closed-row list grows only when a `0` byte is consumed in state
`NEED_MORE` (the end-of-line marker), and then by the current row. -/
theorem decStep_plane2d (s : DecSt) (b : Nat) :
    (decStep s b).plane2d =
      s.plane2d ++ (if s.state = .NEED_MORE ∧ b = 0 then [s.line_l] else []) := by
  obtain ⟨st, tmp, p, l⟩ := s
  cases st <;> simp only [decStep]
  · by_cases hb : b = 0
    · simp [hb]
    · by_cases hs : stOfCode (b >>> 6) = RLEDecoderState.SMALL_TSP <;> simp [hb, hs]
  · by_cases hb : b > 0 <;> simp [hb] <;> omega
  · simp
  · simp
  · simp
  · by_cases ht : (0 : Int) ≤ tmp <;> simp [ht]

/-- Folding the decoder from any state appends exactly the closed rows to the
output plane. -/
theorem foldl_decStep_plane2d (bs : List Nat) :
    ∀ s : DecSt, (bs.foldl decStep s).plane2d = s.plane2d ++ rowsClosed s bs := by
  induction bs with
  | nil => intro s; simp [rowsClosed]
  | cons b bs ih =>
    intro s
    simp only [List.foldl_cons, rowsClosed]
    rw [ih, decStep_plane2d]
    by_cases h : s.state = RLEDecoderState.NEED_MORE ∧ b = 0 <;> simp [h]

/-- The number of closed rows equals the number of end-of-line markers
consumed. -/
theorem rowsClosed_length (bs : List Nat) :
    ∀ s : DecSt, (rowsClosed s bs).length = countEOL s bs := by
  induction bs with
  | nil => intro s; simp [rowsClosed, countEOL]
  | cons b bs ih =>
    intro s
    simp only [rowsClosed, countEOL]
    by_cases h : s.state = RLEDecoderState.NEED_MORE ∧ b = 0 <;> simp [h, ih, Nat.add_comm]

/-! ## Claims -/

/-- Claim C1 (code bug): the round trip `decode_rle (encode_rle B) = B`
cannot hold for every bitmap of positive height and width, because
`encode_rle` raises `IndexError` on every single-row (or single-column)
bitmap: `np.squeeze` collapses it below two dimensions and
`_bitmap.shape[1]` is then out of range.  Evaluation at the failing input
`[[1]]` (and, for contrast, the round trip holding at the 2-by-2 bitmap
`[[5,5],[5,5]]`). -/
theorem c1_roundtrip_fails_single_row :
    encode_rle [[1]] = none ∧
    decode_rle (.bytes ((encode_rle [[5, 5], [5, 5]]).getD [])) none = [[5, 5], [5, 5]] := by
  decide

/-- Claim C3 counterexample: the encoder does not produce the claimed bytes
`00 C0 00 46 05` for 70 pixels of value 5 — on the single-row bitmap it
raises (modelled `none`), and even on a two-row bitmap the long-color code is
the 4-byte `00 C0 46 05` (the high length bits are folded into `0xC0`), not
the claimed 5-byte form. -/
theorem c3_encode_bytes_counterexample :
    encode_rle [List.replicate 70 5] ≠ some [0, 0xC0, 0, 0x46, 5, 0, 0] ∧
    encode_rle [List.replicate 70 5, List.replicate 70 5] ≠
      some ([0, 0xC0, 0, 0x46, 5, 0, 0] ++ [0, 0xC0, 0, 0x46, 5, 0, 0]) := by
  decide

/-- Claim C3 as amended: encoding the single-row bitmap of 70 pixels of
value 5 raises (squeeze bug); on a bitmap made of such rows, each row encodes
to `00 C0 46 05` followed by the end-of-line marker `00 00`; and decoding the
claimed byte stream `00 C0 00 46 05 00 00` does yield one row of 70 pixels of
value 5 (the spurious `00` length byte is absorbed because a zero
accumulator keeps the long-color state in its first pass). -/
theorem c3_amended_encode_decode :
    encode_rle [List.replicate 70 5] = none ∧
    encode_rle [List.replicate 70 5, List.replicate 70 5] =
      some ([0, 0xC0, 0x46, 5, 0, 0] ++ [0, 0xC0, 0x46, 5, 0, 0]) ∧
    decode_rle (.bytes [0, 0xC0, 0, 0x46, 5, 0, 0]) none = [List.replicate 70 5] := by
  decide

/-- Claim C4 (code bug): the bytes `00 04 00 00` are exactly what the
algorithm emits for a row `[0,0,0,0]` (shown on a two-row bitmap), and they
decode back to `[0,0,0,0]`; but on the single-row bitmap itself `encode_rle`
raises `IndexError` (`np.squeeze` collapses the 1-by-4 array to one
dimension and `_bitmap.shape[1]` is out of range). -/
theorem c4_transparent_row_eval :
    encode_rle [[0, 0, 0, 0]] = none ∧
    encode_rle [[0, 0, 0, 0], [0, 0, 0, 0]] = some [0, 4, 0, 0, 0, 4, 0, 0] ∧
    decode_rle (.bytes [0, 4, 0, 0]) none = [[0, 0, 0, 0]] := by
  decide

/-- Helper for claim C2: `encode_rle` succeeds on a 2-row bitmap of row width
16384, one above the claimed maximum; no width validation exists in the
source, runs are merely capped at 16383. -/
theorem encode_rle_wide_isSome :
    (encode_rle [List.replicate 16384 1, List.replicate 16384 1]).isSome = true := by
  have h1 : ¬ (List.flatten [List.replicate 16384 1, List.replicate 16384 1]).length = 0 := by
    simp only [List.flatten_cons, List.flatten_nil, List.length_append,
      List.length_replicate, List.length_nil]
    omega
  have h2 : ¬ ([List.replicate 16384 1, List.replicate 16384 1].length = 1 ∨
      (([List.replicate 16384 1, List.replicate 16384 1].headD []).length = 1)) := by
    simp only [List.length_cons, List.length_nil, List.headD_cons, List.length_replicate]
    omega
  simp only [encode_rle]
  rw [if_neg h1, if_neg h2]
  rfl

/-- Claim C2 counterexample: a bitmap whose row width is 16384 (> 16383) is
encoded without any error, contradicting "for all such inputs the encode call
is fatal and produces no encoded output". -/
theorem c2_width_counterexample :
    (encode_rle [List.replicate 16384 1, List.replicate 16384 1]).isSome = true :=
  encode_rle_wide_isSome

/-- Claim C2 as amended: the dtype precondition is real — `bitmap_to_ods`
asserts the element type is `uint8` and fails otherwise — but the row width
is never validated: a bitmap of row width 16384 encodes successfully. -/
theorem c2_amended_validation (bm : List (List Nat)) (o_id : Nat) :
    bitmap_to_ods false bm o_id = none ∧
    (encode_rle [List.replicate 16384 1, List.replicate 16384 1]).isSome = true :=
  ⟨by simp [bitmap_to_ods], encode_rle_wide_isSome⟩

/-- Claim C5: run-length boundary at 63/64.  A color run of exactly 63 pixels
is emitted as the 3-byte short form `0x00, 0x80|63, v`; of exactly 64 as the
4-byte long form `0x00, 0xC0|(64>>8), 64&0xFF, v`; a transparent run of 63 as
the 2-byte `0x00, 63`; of 64 as the 3-byte `0x00, 0x40|(64>>8), 64&0xFF`. -/
theorem c5_run_length_boundary (v : Nat) (hv : 0 < v) :
    encodeRun v 63 = [0, 0x80 ||| 63, v] ∧ (encodeRun v 63).length = 3 ∧
    encodeRun v 64 = [0, 0xC0 ||| (64 >>> 8), 64 &&& 0xFF, v] ∧
    (encodeRun v 64).length = 4 ∧
    encodeRun 0 63 = [0, 63] ∧ (encodeRun 0 63).length = 2 ∧
    encodeRun 0 64 = [0, 0x40 ||| (64 >>> 8), 64 &&& 0xFF] ∧
    (encodeRun 0 64).length = 3 := by
  have hv0 : v ≠ 0 := by omega
  refine ⟨?_, ?_, ?_, ?_, ?_, ?_, ?_, ?_⟩ <;> simp [encodeRun, hv0]

/-- Claim C5 witness at `v = 5`. -/
theorem c5_witness :
    encodeRun 5 63 = [0, 0x80 ||| 63, 5] ∧ (encodeRun 5 63).length = 3 ∧
    encodeRun 5 64 = [0, 0xC0 ||| (64 >>> 8), 64 &&& 0xFF, 5] ∧
    (encodeRun 5 64).length = 4 ∧
    encodeRun 0 63 = [0, 63] ∧ (encodeRun 0 63).length = 2 ∧
    encodeRun 0 64 = [0, 0x40 ||| (64 >>> 8), 64 &&& 0xFF] ∧
    (encodeRun 0 64).length = 3 :=
  c5_run_length_boundary 5 (by decide)

/-- Claim C7: literal-pixel shortcut.  A color run of length 1 or 2 is
emitted as that many raw value bytes with no escape prefix, and a byte
`b > 0` read in state `NEW_CODE` appends exactly one pixel of value `b` and
stays in `NEW_CODE`. -/
theorem c7_literal_shortcut (v b : Nat) (s : DecSt) (hv : 0 < v) (hb : 0 < b)
    (hs : s.state = .NEW_CODE) :
    encodeRun v 1 = [v] ∧ encodeRun v 2 = [v, v] ∧
    decStep s b = { s with line_l := s.line_l ++ [b] } ∧
    (decStep s b).state = .NEW_CODE := by
  have hv0 : v ≠ 0 := by omega
  have h3 : decStep s b = { s with line_l := s.line_l ++ [b] } := by
    unfold decStep
    rw [hs]
    simp [hb]
  refine ⟨by simp [encodeRun, hv0], ?_, h3, by rw [h3]; exact hs⟩
  simp [encodeRun, hv0]

/-- Claim C7 witness at `v = 5`, `b = 9`, the initial decoder state. -/
theorem c7_witness :
    encodeRun 5 1 = [5] ∧ encodeRun 5 2 = [5, 5] ∧
    decStep initDecSt 9 = { initDecSt with line_l := initDecSt.line_l ++ [9] } ∧
    (decStep initDecSt 9).state = .NEW_CODE :=
  c7_literal_shortcut 5 9 initDecSt (by decide) (by decide) rfl

/-- Claim C8: decoding a record list `[(id=1,X), (id=2,Y), (id=1,Z)]` with
filter `o_id = 1` equals decoding the plain concatenation `X ++ Z`; in
general, decoding with a filter equals decoding the in-order concatenation of
the matching payloads, and decoding without a filter equals decoding the
concatenation of all payloads. -/
theorem c8_filtered_decode (X Y Z : List Nat) :
    decode_rle (.odsList [⟨1, X⟩, ⟨2, Y⟩, ⟨1, Z⟩]) (some 1) =
      decode_rle (.bytes (X ++ Z)) none ∧
    (∀ (l : List ODS) (oid : Nat),
      decode_rle (.odsList l) (some oid) =
        decode_rle
          (.bytes (((l.filter (fun x => oid == x.o_id)).map (fun x => x.data)).flatten))
          none) ∧
    (∀ l : List ODS,
      decode_rle (.odsList l) none =
        decode_rle (.bytes ((l.map (fun x => x.data)).flatten)) none) := by
  refine ⟨?_, fun l oid => rfl, fun l => rfl⟩
  show runDecoder (joinODS _ _) = runDecoder (X ++ Z)
  simp [joinODS, List.filter]

/-- Claim C6: row-boundary clipping.  A run never extends past the row
boundary (`i % w + k ≤ w`), and when the scanner reports the boundary flag
the run ends exactly at the last column and the encoder emits the code of the run
immediately followed by the end-of-line marker `0x00 0x00`, before continuing
with the next row — regardless of the pixel values that follow. -/
theorem c6_row_boundary_clipping (fp : List Nat) (w i fuel : Nat) (hw : 0 < w)
    (hi : i < fp.length) :
    i % w + (findRun fp w i).1 ≤ w ∧
    ((findRun fp w i).2 = true →
      i % w + (findRun fp w i).1 = w ∧
      encodeLoop fp w (fuel + 1) i =
        encodeRun (fp.getD i 0) (findRun fp w i).1 ++
          ([0, 0] ++ encodeLoop fp w fuel (i + (findRun fp w i).1))) := by
  refine ⟨findRun_le fp w i hw, fun hf => ⟨?_, ?_⟩⟩
  · have h1 := findRun_le fp w i hw
    have h2 := findRun_flag fp w i hf
    omega
  · simp only [encodeLoop]
    rw [if_pos hi]
    simp [hf]

/-- Claim C6 witness: the bitmap `[[7,7],[7,7]]` flattened, at position 0 of
width 2: the run of 7s is clipped to length 2 at the row boundary and the
end-of-line marker follows its code. -/
theorem c6_witness :
    0 % 2 + (findRun [7, 7, 7, 7] 2 0).1 ≤ 2 ∧
    0 % 2 + (findRun [7, 7, 7, 7] 2 0).1 = 2 ∧
    encodeLoop [7, 7, 7, 7] 2 4 0 =
      encodeRun (List.getD [7, 7, 7, 7] 0 0) (findRun [7, 7, 7, 7] 2 0).1 ++
        ([0, 0] ++ encodeLoop [7, 7, 7, 7] 2 3 (0 + (findRun [7, 7, 7, 7] 2 0).1)) :=
  ⟨(c6_row_boundary_clipping [7, 7, 7, 7] 2 0 3 (by decide) (by decide)).1,
   ((c6_row_boundary_clipping [7, 7, 7, 7] 2 0 3 (by decide) (by decide)).2 (by decide)).1,
   ((c6_row_boundary_clipping [7, 7, 7, 7] 2 0 3 (by decide) (by decide)).2 (by decide)).2⟩

/-- Claim C9 counterexample: after the escape bytes `0x00 0xC0` the decoder
is in `LARGE_CCO` with a zero length seed; consuming the first further byte
`0x00` leaves `tmp = 0` (not negative), and after the second further byte
`0x05` the decoder has not returned to `NEW_CODE` — it treated `0x05` as
another length byte.  This refutes "the second byte is always interpreted as
the color ... including when the combined run length is 0". -/
theorem c9_zero_length_counterexample :
    (List.foldl decStep initDecSt [0, 0xC0, 0]).state = .LARGE_CCO ∧
    (List.foldl decStep initDecSt [0, 0xC0, 0]).tmp = 0 ∧
    (List.foldl decStep initDecSt [0, 0xC0, 0, 5]).state ≠ .NEW_CODE := by
  decide

/-- Claim C9 as amended: in state `LARGE_CCO` with a nonnegative accumulator,
if the combined run length `tmp*256 + b1` is positive, the first byte flips
`tmp` negative and the second byte is the color: `|tmp|` pixels of it are
appended and the state returns to `NEW_CODE`; but if the combined length is
0, `tmp` stays 0 and the decoder remains in the first pass (the next byte is
treated as another length byte). -/
theorem c9_large_cco_amended (s : DecSt) (b1 b2 : Nat) (hs : s.state = .LARGE_CCO)
    (h0 : 0 ≤ s.tmp) :
    (0 < s.tmp * 256 + (b1 : Int) →
      (decStep s b1).tmp < 0 ∧ (decStep s b1).state = .LARGE_CCO ∧
      (decStep (decStep s b1) b2).state = .NEW_CODE ∧
      (decStep (decStep s b1) b2).line_l =
        s.line_l ++ List.replicate (s.tmp * 256 + (b1 : Int)).toNat b2) ∧
    (s.tmp * 256 + (b1 : Int) = 0 → decStep s b1 = s) := by
  obtain ⟨st, t, p, l⟩ := s
  have hst : st = RLEDecoderState.LARGE_CCO := hs
  subst hst
  have ht : (0 : Int) ≤ t := h0
  have h1 : decStep ⟨.LARGE_CCO, t, p, l⟩ b1 =
      ⟨.LARGE_CCO, -(t * 256 + (b1 : Int)), p, l⟩ := by
    simp [decStep, ht]
  constructor
  · intro hpos
    have hpos2 : 0 < t * 256 + (b1 : Int) := hpos
    have hneg : -(t * 256 + (b1 : Int)) < 0 := by omega
    have h2 : decStep ⟨.LARGE_CCO, -(t * 256 + (b1 : Int)), p, l⟩ b2 =
        ⟨.NEW_CODE, -(t * 256 + (b1 : Int)), p,
          l ++ List.replicate (t * 256 + (b1 : Int)).toNat b2⟩ := by
      simp only [decStep]
      rw [if_neg (not_le.mpr hneg)]
      simp
    rw [h1, h2]
    exact ⟨hneg, rfl, rfl, rfl⟩
  · intro hzero
    have hzero2 : t * 256 + (b1 : Int) = 0 := hzero
    have htz : t = 0 := by omega
    rw [h1, hzero2, htz]
    simp

/-- Claim C9 witness: state `LARGE_CCO` with seed 0, bytes `b1 = 1`
(combined length 1) then `b2 = 7`. -/
theorem c9_witness :
    (decStep ⟨.LARGE_CCO, 0, [], []⟩ 1).tmp < 0 ∧
    (decStep ⟨.LARGE_CCO, 0, [], []⟩ 1).state = .LARGE_CCO ∧
    (decStep (decStep ⟨.LARGE_CCO, 0, [], []⟩ 1) 7).state = .NEW_CODE ∧
    (decStep (decStep ⟨.LARGE_CCO, 0, [], []⟩ 1) 7).line_l =
      ([] : List Nat) ++ List.replicate ((0 : Int) * 256 + ((1 : Nat) : Int)).toNat 7 :=
  (c9_large_cco_amended ⟨.LARGE_CCO, 0, [], []⟩ 1 7 rfl (by decide)).1 (by decide)

/-- Claim C10: the decoded bitmap consists of exactly the rows closed by an
end-of-line marker (a `0` byte consumed in state `NEED_MORE`), in order;
pixels decoded after the last marker are discarded, and a stream with no
marker decodes to the empty bitmap. -/
theorem c10_only_closed_rows (data : List Nat) :
    decode_rle (.bytes data) none = rowsClosed initDecSt data ∧
    (countEOL initDecSt data = 0 → decode_rle (.bytes data) none = []) := by
  have h : decode_rle (.bytes data) none = rowsClosed initDecSt data := by
    show (data.foldl decStep initDecSt).plane2d = _
    rw [foldl_decStep_plane2d]
    simp [initDecSt]
  refine ⟨h, fun hc => ?_⟩
  rw [h]
  have hl := rowsClosed_length data initDecSt
  rw [hc] at hl
  exact List.length_eq_zero.mp hl

/-- Claim C10 witness: the stream `[5]` decodes a pixel but contains no
end-of-line marker, so the result is the empty bitmap. -/
theorem c10_witness : decode_rle (.bytes [5]) none = [] :=
  (c10_only_closed_rows [5]).2 (by decide)
